import Mathlib

/-!
# Verification of the autorriculum PDF-extraction and profile-merge engine

Shallow embedding of the PDF data extractor (`parseExtractedText`), the merge
engine (`mergeProfileData`) and the persistence step (`saveProfile`) of the
repository, together with proofs and refutations of the specification claims.

JavaScript string primitives (`toLowerCase`, `trim`, `split`, `includes`,
regular-expression matching with the `g` flag) are modelled explicitly on
`List Char`.  Case mapping is modelled for ASCII and the Latin-1 letter range,
which covers every character class the program's regular expressions mention.
-/

/-- Model of `String.prototype.toLowerCase` for one character: ASCII `A`-`Z`
and the Latin-1 uppercase letters `À`-`Þ` (except `×`) map to their lowercase
forms 32 code points higher; every other character is left unchanged. -/
def jsToLowerChar (c : Char) : Char :=
  if ('A' ≤ c ∧ c ≤ 'Z') ∨ (0xC0 ≤ c.toNat ∧ c.toNat ≤ 0xDE ∧ c.toNat ≠ 0xD7) then
    Char.ofNat (c.toNat + 32)
  else c

/-- Model of `String.prototype.toLowerCase`. -/
def jsToLower (s : String) : String :=
  String.mk (s.data.map jsToLowerChar)

/-- The whitespace class `\s` of JavaScript regular expressions (restricted to
the code points a text extractor actually produces). -/
def isJsWs (c : Char) : Bool :=
  c == ' ' || c == '\t' || c == '\n' || c == '\r' ||
  c == '\x0b' || c == '\x0c' || c.toNat == 0xA0

/-- Model of `String.prototype.trim` (strip leading and trailing whitespace). -/
def jsTrim (s : String) : String :=
  String.mk (((s.data.dropWhile isJsWs).reverse.dropWhile isJsWs).reverse)

/-- `leadsWith pat cs` holds when `pat` is an initial segment of `cs`
(used to model anchored literal matching). -/
def leadsWith : List Char → List Char → Bool
  | [], _ => true
  | _ :: _, [] => false
  | p :: ps, c :: cs => p == c && leadsWith ps cs

/-- Occurrence of `pat` anywhere in `text`
(model of `String.prototype.includes`). -/
def containsSub (text pat : List Char) : Bool :=
  match text with
  | [] => pat.isEmpty
  | _ :: rest => leadsWith pat text || containsSub rest pat

/-- Model of `String.prototype.includes`. -/
def containsSubstr (s sub : String) : Bool :=
  containsSub s.data sub.data

/-- Case-insensitive anchored literal match: the pattern is given in lowercase
and each text character is case-folded before comparison (models a literal
under the `i` regex flag). -/
def ciLeads : List Char → List Char → Bool
  | [], _ => true
  | _ :: _, [] => false
  | p :: ps, c :: cs => jsToLowerChar c == p && ciLeads ps cs

/-- Case-insensitive whole-string equality against a lowercase pattern
(models an `/^word$/i` test). -/
def ciEquals (s : String) (w : String) : Bool :=
  s.data.map jsToLowerChar == w.data

def isUpperAZ (c : Char) : Bool := 'A' ≤ c && c ≤ 'Z'

def isLowerAZ (c : Char) : Bool := 'a' ≤ c && c ≤ 'z'

def isAsciiLetter (c : Char) : Bool := isUpperAZ c || isLowerAZ c

/-- The key-derivation rule of the source
(`name.toLowerCase().replace(/[^a-z0-9]/g, '_')`): lower-case the name, then
replace every character outside `a`-`z`, `0`-`9` with one underscore. -/
def deriveKey (name : String) : String :=
  String.mk ((jsToLower name).data.map (fun c =>
    if ('a' ≤ c ∧ c ≤ 'z') ∨ ('0' ≤ c ∧ c ≤ '9') then c else '_'))

/-- Model of `s.charAt(0).toUpperCase() + s.slice(1)`. -/
def capitalizeFirst (s : String) : String :=
  match s.data with
  | [] => ""
  | c :: cs => String.mk (Char.toUpper c :: cs)

/-! ## Regular-expression matchers for the contact extractor

Each of the five contact regular expressions of `parseExtractedText` is
compiled by hand into an anchored match attempt on `List Char` returning the
matched characters and the remaining input.  `jsMatchAll` then models
`String.prototype.match` with the `g` flag: scan left to right, at each
position attempt the anchored match, collect the match and resume after it,
or advance one character. -/

/-- The class `\w` of JavaScript regular expressions. -/
def wordChar (c : Char) : Bool := isAsciiLetter c || c.isDigit || c == '_'

/-- The class `[\w\.-]` used by the email regular expression. -/
def emailChar (c : Char) : Bool := wordChar c || c == '.' || c == '-'

/-- Backtracking search for the split of the domain part of an email match:
`[\w\.-]+` is greedy, so the engine picks the largest `j ≥ 1` such that
`R[j] = '.'` and `R[j+1]` is a word character.  `emailSplitAux R j` tries
`j, j-1, …, 1`. -/
def emailSplitAux (R : List Char) : Nat → Option Nat
  | 0 => none
  | Nat.succ n =>
    if R.get? (Nat.succ n) == some '.' && wordChar ((R.get? (n + 2)).getD ' ') then
      some (Nat.succ n)
    else emailSplitAux R n

/-- Anchored attempt of `/[\w\.-]+@[\w\.-]+\.\w+/` at the head of the input. -/
def emailMatchAt (cs : List Char) : Option (List Char × List Char) :=
  let l := cs.takeWhile emailChar
  if l.isEmpty then none
  else
    match cs.drop l.length with
    | '@' :: afterAt =>
      let R := afterAt.takeWhile emailChar
      match emailSplitAux R R.length with
      | some j =>
        let w := (R.drop (j + 1)).takeWhile wordChar
        some (l ++ '@' :: (R.take j ++ '.' :: w), afterAt.drop (j + 1 + w.length))
      | none => none
    | _ => none

/-- Anchored attempt of `/https?:\/\/[^\s]+/` at the head of the input. -/
def urlMatchAt (cs : List Char) : Option (List Char × List Char) :=
  if leadsWith "https://".data cs then
    let rest := cs.drop 8
    let run := rest.takeWhile (fun c => !isJsWs c)
    if run.isEmpty then none else some ('h' :: "ttps://".data ++ run, rest.drop run.length)
  else if leadsWith "http://".data cs then
    let rest := cs.drop 7
    let run := rest.takeWhile (fun c => !isJsWs c)
    if run.isEmpty then none else some ('h' :: "ttp://".data ++ run, rest.drop run.length)
  else none

/-- The class `[\w-]` of the social-profile regular expressions. -/
def handleChar (c : Char) : Bool := wordChar c || c == '-'

/-- Anchored attempt of `/linkedin\.com\/in\/[\w-]+/` at the head of the input. -/
def linkedinMatchAt (cs : List Char) : Option (List Char × List Char) :=
  if leadsWith "linkedin.com/in/".data cs then
    let rest := cs.drop 16
    let run := rest.takeWhile handleChar
    if run.isEmpty then none
    else some ("linkedin.com/in/".data ++ run, rest.drop run.length)
  else none

/-- Anchored attempt of `/github\.com\/[\w-]+/` at the head of the input. -/
def githubMatchAt (cs : List Char) : Option (List Char × List Char) :=
  if leadsWith "github.com/".data cs then
    let rest := cs.drop 11
    let run := rest.takeWhile handleChar
    if run.isEmpty then none
    else some ("github.com/".data ++ run, rest.drop run.length)
  else none

/-- First alternative of the phone pattern, `\+?[1-9]\d{1,14}`, without the
optional plus: one digit `1`-`9` followed by one to fourteen digits, greedy. -/
def phoneAlt1Core (cs : List Char) : Option (List Char × List Char) :=
  match cs with
  | c :: rest =>
    if '1' ≤ c && c ≤ '9' then
      let ds := (rest.takeWhile Char.isDigit).take 14
      if ds.isEmpty then none else some (c :: ds, rest.drop ds.length)
    else none
  | [] => none

/-- `\+?[1-9]\d{1,14}` — a leading `+` is consumed greedily; if the rest then
fails, the engine retries with the empty option, where `[1-9]` cannot match
the `+`, so the whole alternative fails. -/
def phoneAlt1 (cs : List Char) : Option (List Char × List Char) :=
  match cs with
  | '+' :: rest => (phoneAlt1Core rest).map (fun p => ('+' :: p.1, p.2))
  | _ => phoneAlt1Core cs

/-- Take exactly `n` digits from the head of the input. -/
def takeDigits : Nat → List Char → Option (List Char × List Char)
  | 0, cs => some ([], cs)
  | Nat.succ n, c :: cs =>
    if c.isDigit then (takeDigits n cs).map (fun p => (c :: p.1, p.2)) else none
  | Nat.succ _, [] => none

/-- One optional character from a class (`\s?`, `-?`, `[-.]?`): consumed
greedily; because the class is disjoint from the digit that must follow,
greedy consumption needs no backtracking. -/
def optChar (p : Char → Bool) (cs : List Char) : List Char × List Char :=
  match cs with
  | c :: rest => if p c then ([c], rest) else ([], cs)
  | [] => ([], cs)

/-- Second alternative of the phone pattern, `\(\d{3}\)\s?\d{3}-?\d{4}`. -/
def phoneAlt2 (cs : List Char) : Option (List Char × List Char) :=
  match cs with
  | '(' :: r1 =>
    match takeDigits 3 r1 with
    | some (d1, r2) =>
      (match r2 with
       | ')' :: r3 =>
         let (w, r4) := optChar isJsWs r3
         match takeDigits 3 r4 with
         | some (d2, r5) =>
           let (dash, r6) := optChar (· == '-') r5
           match takeDigits 4 r6 with
           | some (d3, r7) => some ('(' :: d1 ++ ')' :: w ++ d2 ++ dash ++ d3, r7)
           | none => none
         | none => none
       | _ => none)
    | none => none
  | _ => none

/-- Third alternative of the phone pattern, `\d{3}[-.]?\d{3}[-.]?\d{4}`. -/
def phoneAlt3 (cs : List Char) : Option (List Char × List Char) :=
  match takeDigits 3 cs with
  | some (d1, r1) =>
    let (s1, r2) := optChar (fun c => c == '-' || c == '.') r1
    match takeDigits 3 r2 with
    | some (d2, r3) =>
      let (s2, r4) := optChar (fun c => c == '-' || c == '.') r3
      match takeDigits 4 r4 with
      | some (d3, r5) => some (d1 ++ s1 ++ d2 ++ s2 ++ d3, r5)
      | none => none
    | none => none
  | none => none

/-- Anchored attempt of the phone regular expression
`/(?:\+?[1-9]\d{1,14}|\(\d{3}\)\s?\d{3}-?\d{4}|\d{3}[-.]?\d{3}[-.]?\d{4})/`,
trying the alternatives in source order. -/
def phoneMatchAt (cs : List Char) : Option (List Char × List Char) :=
  match phoneAlt1 cs with
  | some r => some r
  | none =>
    match phoneAlt2 cs with
    | some r => some r
    | none => phoneAlt3 cs

/-- Global scan of `String.prototype.match(/…/g)`: attempt the anchored match
at every position from the left, emitting matches and resuming after each.
The fuel argument bounds the recursion; every anchored matcher above returns a
non-empty match, so fuel `length + 1` is never exhausted. -/
def globalScan (f : List Char → Option (List Char × List Char)) :
    Nat → List Char → List (List Char)
  | 0, _ => []
  | _, [] => []
  | Nat.succ fuel, c :: cs =>
    match f (c :: cs) with
    | some (m, r) => m :: globalScan f fuel r
    | none => globalScan f fuel cs

/-- `text.match(regex) || []` for a global regex, as a list of strings. -/
def jsMatchAll (f : List Char → Option (List Char × List Char)) (s : String) :
    List String :=
  (globalScan f (s.data.length + 1) s.data).map String.mk

/-- The phone filter of `parseExtractedText`: keep a match only if stripping
non-digits leaves 10–15 characters, it is not a `19xx`/`20xx` year, and it is
not a bare 2- or 4-digit sequence. -/
def keepPhone (num : String) : Bool :=
  let digits := num.data.filter Char.isDigit
  decide (10 ≤ digits.length) && decide (digits.length ≤ 15) &&
  !(decide (digits.length = 4) && (leadsWith ['1', '9'] digits || leadsWith ['2', '0'] digits)) &&
  !(decide (digits.length = 2) || decide (digits.length = 4))

def emailsOf (text : String) : List String := jsMatchAll emailMatchAt text

def phonesOf (text : String) : List String :=
  (jsMatchAll phoneMatchAt text).filter keepPhone

def urlsOf (text : String) : List String := jsMatchAll urlMatchAt text

def linkedinOf (text : String) : List String :=
  (jsMatchAll linkedinMatchAt text).map (fun p => "https://" ++ p)

def githubOf (text : String) : List String :=
  (jsMatchAll githubMatchAt text).map (fun p => "https://" ++ p)

/-- `arr.indexOf(item)` for an element known to occur: the index of the first
occurrence. -/
def jsIndexOf (l : List String) (x : String) : Nat :=
  match l with
  | [] => 0
  | y :: t => if y == x then 0 else jsIndexOf t x + 1

/-- The JavaScript dedup idiom
`arr.filter((item, index, arr) => arr.indexOf(item) === index)`:
keep an element exactly when its position is the first occurrence. -/
def jsDedup (l : List String) : List String :=
  (l.enum.filter (fun p => jsIndexOf l p.2 == p.1)).map Prod.snd

/-- The concatenation of the per-category match lists, in source order,
before deduplication. -/
def contactsConcat (text : String) : List String :=
  emailsOf text ++ phonesOf text ++ urlsOf text ++ linkedinOf text ++ githubOf text

/-- The `contactInfo` list of `parseExtractedText`. -/
def extractContacts (text : String) : List String :=
  jsDedup (contactsConcat text)

example : emailsOf "mail alice@example.com here" = ["alice@example.com"] := by decide
example : extractContacts "a@b.cd a@b.cd" = ["a@b.cd"] := by decide
example : phonesOf "in 1999 x" = [] := by decide
example : phonesOf "+5581999990000" = ["+5581999990000"] := by decide
example : urlsOf "see https://x.y/z now" = ["https://x.y/z"] := by decide
example : linkedinOf "at linkedin.com/in/dev-g end" = ["https://linkedin.com/in/dev-g"] := by decide

/-! ## Data model

The `ProfileData` interface of the extractor module: every field is optional
(`Partial<ProfileData>` is the same shape).  `Record<string, any>` maps are
modelled as association lists from derived keys to the entry shapes this
program actually constructs; the fields the merge never inspects use an
uninterpreted string-valued association-list placeholder. -/

/-- A `{ name, proficiency, context? }` language entry. -/
@[ext] structure LanguageEntry where
  name : String
  proficiency : String
  context : Option String
deriving DecidableEq, Repr

/-- A certification entry as constructed by `parseExtractedText`
(`{ name, type, extracted_from_pdf }`). -/
@[ext] structure CertEntry where
  name : String
  type : String
  extracted_from_pdf : Bool
deriving DecidableEq, Repr

/-- An education entry as constructed by `parseExtractedText`. -/
@[ext] structure EduEntry where
  degree : String
  field : String
  institution : String
  location : String
  start_date : String
  end_date : String
  status : String
  extracted_from_pdf : Bool
deriving DecidableEq, Repr

/-- The `technical_skills` object; each sub-list is optional. -/
@[ext] structure TechnicalSkills where
  operating_systems : Option (List String)
  programming_languages : Option (List String)
  areas_of_expertise : Option (List String)
  tools_and_technologies : Option (List String)
deriving DecidableEq, Repr

/-- The `ProfileData` record of the extractor module. -/
@[ext] structure ProfileData where
  name : Option String
  contact : Option (List String)
  facts : Option (List String)
  projects : Option (List (String × String))
  languages : Option (List LanguageEntry)
  certifications : Option (List (String × CertEntry))
  superior_education : Option (List (String × EduEntry))
  professional_experience : Option (List (String × String))
  academical_research : Option (List (String × String))
  memberships : Option (List (String × String))
  technical_skills : Option TechnicalSkills
  github_stats : Option (List (String × String))
deriving DecidableEq, Repr

/-- The all-absent record (`{}`). -/
def emptyProfile : ProfileData :=
  { name := none, contact := none, facts := none, projects := none,
    languages := none, certifications := none, superior_education := none,
    professional_experience := none, academical_research := none,
    memberships := none, technical_skills := none, github_stats := none }

/-! ## Certification extractor: line scan -/

def certificationKeywords : List String :=
  ["certification", "certificate", "certified", "course", "training",
   "certificação", "certificado", "curso", "treinamento"]

def certificationProviders : List String :=
  ["aws", "microsoft", "google", "oracle", "cisco", "comptia",
   "coursera", "udemy", "edx", "linkedin learning", "pluralsight",
   "figma", "adobe", "salesforce", "vmware", "red hat"]

/-- `/^page\s+\d+\s+of\s+\d+$/i`. -/
def pagePatTest (s : String) : Bool :=
  let cs := s.data
  if ciLeads "page".data cs then
    let r1 := cs.drop 4
    let w1 := r1.takeWhile isJsWs
    if w1.isEmpty then false
    else
      let r2 := r1.drop w1.length
      let d1 := r2.takeWhile Char.isDigit
      if d1.isEmpty then false
      else
        let r3 := r2.drop d1.length
        let w2 := r3.takeWhile isJsWs
        if w2.isEmpty then false
        else
          let r4 := r3.drop w2.length
          if ciLeads "of".data r4 then
            let r5 := r4.drop 2
            let w3 := r5.takeWhile isJsWs
            if w3.isEmpty then false
            else
              let r6 := r5.drop w3.length
              let d2 := r6.takeWhile Char.isDigit
              !d2.isEmpty && (r6.drop d2.length).isEmpty
          else false
  else false

/-- `/^\d+\s*(months?|meses?)$/i`. -/
def durationPatTest (s : String) : Bool :=
  let cs := s.data
  let ds := cs.takeWhile Char.isDigit
  if ds.isEmpty then false
  else
    let r := ((cs.drop ds.length).dropWhile isJsWs).map jsToLowerChar
    r == "month".data || r == "months".data || r == "mese".data || r == "meses".data

/-- `/^principais\s+competências$/i`. -/
def principaisPatTest (s : String) : Bool :=
  let cs := s.data
  if ciLeads "principais".data cs then
    let r := cs.drop 10
    let w := r.takeWhile isJsWs
    !w.isEmpty && (r.drop w.length).map jsToLowerChar == "competências".data
  else false

/-- The `unwantedPatterns` list: structural noise a line is rejected for. -/
def unwantedLine (originalLine : String) : Bool :=
  pagePatTest originalLine ||
  ciEquals originalLine "certification" || ciEquals originalLine "certifications" ||
  ciEquals originalLine "certificaçõe" || ciEquals originalLine "certificações" ||
  durationPatTest originalLine ||
  ciEquals originalLine "language" || ciEquals originalLine "languages" ||
  ciEquals originalLine "idioma" || ciEquals originalLine "idiomas" ||
  ciEquals originalLine "contato" ||
  principaisPatTest originalLine

/-- `/^[A-Z][a-z]+\s+[A-Z][a-z]+$/` — the two-capitalized-word byline pattern.
The character classes of consecutive pieces are disjoint, so greedy matching
needs no backtracking. -/
def namePatTest (s : String) : Bool :=
  match s.data with
  | [] => false
  | c0 :: rest =>
    if isUpperAZ c0 then
      let l1 := rest.takeWhile isLowerAZ
      if l1.isEmpty then false
      else
        let r1 := rest.drop l1.length
        let ws := r1.takeWhile isJsWs
        if ws.isEmpty then false
        else
          match r1.drop ws.length with
          | c2 :: rest2 =>
            if isUpperAZ c2 then
              let l2 := rest2.takeWhile isLowerAZ
              !l2.isEmpty && (rest2.drop l2.length).isEmpty
            else false
          | [] => false
    else false

/-- `/[a-z]+\s*\d+/i.test(line)` — an unanchored letters-then-digits pattern;
again the classes are disjoint, so the greedy runs are forced. -/
def coursePatTest (cs : List Char) : Bool :=
  match cs with
  | [] => false
  | _ :: rest =>
    (let letters := cs.takeWhile isAsciiLetter
     if letters.isEmpty then false
     else
       match (cs.drop letters.length).dropWhile isJsWs with
       | d :: _ => d.isDigit
       | [] => false) ||
    coursePatTest rest

/-- `/^[A-Z][a-z]+(?:\s+[A-Z][a-z]*)*.*$/.test(line)`: the trailing `.*`
absorbs everything after the leading `[A-Z][a-z]+`, so the test reduces to
the first two characters. -/
def titleCaseTest (s : String) : Bool :=
  match s.data with
  | c0 :: c1 :: _ => isUpperAZ c0 && isLowerAZ c1
  | _ => false

/-- `/^\d+$/.test(line)`. -/
def allDigitsLine (s : String) : Bool :=
  !s.data.isEmpty && s.data.all Char.isDigit

/-- `/^[a-z\s]+$/.test(line)`. -/
def allLowerWsLine (s : String) : Bool :=
  !s.data.isEmpty && s.data.all (fun c => isLowerAZ c || isJsWs c)

/-- The look-ahead merge of the scan (source lines 605–611): when a next line
exists and its trimmed form is non-empty, shorter than 15 characters, and
starts with a lowercase letter or is exactly `"Science"`, append it to the
candidate name and blank it in the line array. -/
def lookaheadMerge (lines : List String) (index : Nat) (certName : String) :
    String × List String :=
  if index + 1 < lines.length then
    let nextLine := jsTrim ((lines.get? (index + 1)).getD "")
    if 0 < nextLine.length && nextLine.length < 15 &&
        ((nextLine.data.head?.getD ' ' |> isLowerAZ) || nextLine == "Science") then
      (certName ++ " " ++ nextLine, lines.set (index + 1) "")
    else (certName, lines)
  else (certName, lines)

/-- Strip a leading `certificate:`/`certification:`/`certificated:`/`course:`/
`training:` label (`/^(certificat(e|ion|ed)|course|training):\s*/i`),
alternatives tried in the regex's order. -/
def stripCertLabel (s : String) : String :=
  match ["certificate", "certification", "certificated", "course", "training"].find?
      (fun w => ciLeads (w.data ++ [':']) s.data) with
  | some w => String.mk ((s.data.drop (w.length + 1)).dropWhile isJsWs)
  | none => s

/-- State threaded through the certification line scan: the (mutated) line
array, the section flag, and the accumulated certification map. -/
structure CertScanState where
  lines : List String
  inCertSection : Bool
  certifications : List (String × CertEntry)
deriving Repr

/-- One iteration of the `lines.forEach` certification scan. -/
def processCertLine (st : CertScanState) (index : Nat) : CertScanState :=
  let line := (st.lines.get? index).getD ""
  let lowerLine := jsTrim (jsToLower line)
  let originalLine := jsTrim line
  if lowerLine.length < 3 then st
  else if containsSubstr lowerLine "certification" || containsSubstr lowerLine "certificação" then
    { st with inCertSection := true }
  else
    let st :=
      if st.inCertSection &&
          (containsSubstr lowerLine "experience" || containsSubstr lowerLine "experiência" ||
           containsSubstr lowerLine "education" || containsSubstr lowerLine "formação" ||
           containsSubstr lowerLine "gabriel borges" || namePatTest originalLine) then
        { st with inCertSection := false }
      else st
    if unwantedLine originalLine then st
    else
      let hasCertKeyword := certificationKeywords.any (fun k => containsSubstr lowerLine k)
      let hasProvider := certificationProviders.any (fun p => containsSubstr lowerLine p)
      let hasCoursePattern := coursePatTest lowerLine.data
      let isTitleCase := titleCaseTest originalLine
      let contextualMatch := st.inCertSection && decide (originalLine.length > 3) &&
        !allDigitsLine originalLine && !allLowerWsLine originalLine
      if hasCertKeyword || hasProvider || (hasCoursePattern && isTitleCase) || contextualMatch then
        let merged := lookaheadMerge st.lines index originalLine
        let certName := stripCertLabel merged.1
        let isGeneric := certificationKeywords.contains (jsToLower certName) ||
          jsToLower certName == "certifications" || jsToLower certName == "certificações" ||
          jsToLower certName == "science"
        if decide (certName.length > 3) && !isGeneric then
          let certKey := deriveKey certName
          if (st.certifications.find? (fun p => p.1 == certKey)).isSome then
            { st with lines := merged.2 }
          else
            let entry : CertEntry :=
              { name := certName, type := "course_completion", extracted_from_pdf := true }
            { st with lines := merged.2,
                      certifications := st.certifications ++ [(certKey, entry)] }
        else { st with lines := merged.2 }
      else st

/-- The full `lines.forEach` certification scan over `text.split('\n')`. -/
def scanCertLines (lines : List String) : List (String × CertEntry) :=
  ((List.range lines.length).foldl processCertLine
    { lines := lines, inCertSection := false, certifications := [] }).certifications

example :
    scanCertLines ["Certifications", "Microsoft Azure", "fundamentals"] =
      [("microsoft_azure_fundamentals",
        { name := "Microsoft Azure fundamentals", type := "course_completion",
          extracted_from_pdf := true })] := by decide

example :
    scanCertLines ["Certifications", "AWS Certified Cloud Practitioner",
        "Experience", "Random Company"] =
      [("aws_certified_cloud_practitioner",
        { name := "AWS Certified Cloud Practitioner", type := "course_completion",
          extracted_from_pdf := true })] := by decide

example :
    scanCertLines ["Certifications", "AWS Certified Developer", "Projects"] =
      [("aws_certified_developer",
        { name := "AWS Certified Developer", type := "course_completion",
          extracted_from_pdf := true }),
       ("projects",
        { name := "Projects", type := "course_completion",
          extracted_from_pdf := true })] := by decide

/-! ## Certification extractor: block pass

The second pass applies
`/certifica[tç][õo]es?[\s:]*([^\n]+(?:\n[^\n]+)*?)(?=\n\s*\n|\n[A-Z]|$)/gi`
to the whole text.  The pattern is compiled by hand: after the literal head,
`[\s:]*` is greedy with backtracking, the first `[^\n]+` is forced to take a
whole line (a shorter take leaves a non-newline next character on which both
the lookahead and a `\n`-headed continuation fail), and the lazy group then
extends line by line until the lookahead holds. -/

/-- `text.split('\n')` (split at every newline, keeping empty pieces). -/
def splitNlAux (cur : List Char) : List Char → List String
  | [] => [String.mk cur.reverse]
  | c :: cs =>
    if c == '\n' then String.mk cur.reverse :: splitNlAux [] cs
    else splitNlAux (c :: cur) cs

/-- Model of `String.prototype.split('\n')`. -/
def jsSplitNl (s : String) : List String := splitNlAux [] s.data

/-- The lookahead `(?=\n\s*\n|\n[A-Z]|$)`; `lookWsNewline` is the
`\s*\n` part (a second newline within the leading whitespace run). -/
def lookWsNewline : List Char → Bool
  | [] => false
  | c :: t => if c == '\n' then true else if isJsWs c then lookWsNewline t else false

def certLookahead (cs : List Char) : Bool :=
  match cs with
  | [] => true
  | '\n' :: t =>
    lookWsNewline t || (match t with | c :: _ => isAsciiLetter c | [] => false)
  | _ => false

/-- The lazy `(?:\n[^\n]+)*?` with the trailing lookahead: prefer stopping
when the lookahead holds, otherwise consume a newline and a whole non-empty
line and continue.  Returns the number of characters consumed. -/
def certBodyLoop : Nat → List Char → Option Nat
  | fuel, cs =>
    if certLookahead cs then some 0
    else
      match fuel, cs with
      | Nat.succ f, '\n' :: t =>
        let run := t.takeWhile (fun c => c != '\n')
        if run.isEmpty then none
        else (certBodyLoop f (t.drop run.length)).map (fun n => n + 1 + run.length)
      | _, _ => none

/-- One backtracking choice of the greedy `[\s:]*`: consume `k` characters,
then require a non-empty first body line and run the lazy loop. -/
def certWsTry (fuel : Nat) (cs : List Char) (k : Nat) : Option Nat :=
  let cs' := cs.drop k
  let run := cs'.takeWhile (fun c => c != '\n')
  if run.isEmpty then none
  else (certBodyLoop fuel (cs'.drop run.length)).map (fun n => k + run.length + n)

/-- Greedy `[\s:]*`: try the longest take first, then shorter ones. -/
def certWsLoop (fuel : Nat) (cs : List Char) : Nat → Option Nat
  | 0 => certWsTry fuel cs 0
  | Nat.succ k =>
    match certWsTry fuel cs (Nat.succ k) with
    | some n => some n
    | none => certWsLoop fuel cs k

/-- Anchored attempt of the block regular expression; returns the length of
the whole match.  The literal head is `certifica`, one of `t`/`ç`, one of
`õ`/`o`, an `e` and a greedy optional `s`, all case-insensitively. -/
def certBlockMatchAt (fuel : Nat) (cs : List Char) : Option Nat :=
  if ciLeads "certifica".data cs then
    match cs.drop 9 with
    | c1 :: c2 :: c3 :: rest =>
      if (jsToLowerChar c1 == 't' || jsToLowerChar c1 == 'ç') &&
         (jsToLowerChar c2 == 'õ' || jsToLowerChar c2 == 'o') &&
         jsToLowerChar c3 == 'e' then
        match rest with
        | c4 :: rest' =>
          if jsToLowerChar c4 == 's' then
            match (certWsLoop fuel rest'
                ((rest'.takeWhile (fun c => isJsWs c || c == ':')).length)).map
                (fun n => 13 + n) with
            | some n => some n
            | none =>
              (certWsLoop fuel rest
                ((rest.takeWhile (fun c => isJsWs c || c == ':')).length)).map
                (fun n => 12 + n)
          else
            (certWsLoop fuel rest
              ((rest.takeWhile (fun c => isJsWs c || c == ':')).length)).map
              (fun n => 12 + n)
        | [] => none
      else none
    | _ => none
  else none

/-- Global scan for a length-returning anchored matcher. -/
def globalScanLen (f : List Char → Option Nat) : Nat → List Char → List (List Char)
  | 0, _ => []
  | _, [] => []
  | Nat.succ fuel, c :: cs =>
    match f (c :: cs) with
    | some n => (c :: cs).take n :: globalScanLen f fuel ((c :: cs).drop n)
    | none => globalScanLen f fuel cs

/-- `text.match(certSectionRegex)` as a list of matched sections. -/
def certSectionMatches (text : String) : List String :=
  (globalScanLen (certBlockMatchAt (text.data.length + 1))
    (text.data.length + 1) text.data).map String.mk

/-- The block pass: for each matched section, add every non-trivial line
after the header line, first writer wins. -/
def blockPassCerts (text : String) (certs : List (String × CertEntry)) :
    List (String × CertEntry) :=
  (certSectionMatches text).foldl (fun acc sec =>
    ((jsSplitNl sec).drop 1).foldl (fun acc line =>
      let cleanLine := jsTrim line
      if decide (cleanLine.length > 3) then
        let certKey := deriveKey cleanLine
        if (acc.find? (fun p => p.1 == certKey)).isSome then acc
        else
          acc ++ [(certKey, { name := cleanLine, type := "course_completion",
                              extracted_from_pdf := true })]
      else acc) acc) certs

/-- The complete certification extraction: line scan then block pass. -/
def extractCertifications (text : String) : List (String × CertEntry) :=
  blockPassCerts text (scanCertLines (jsSplitNl text))

example :
    certSectionMatches "Certificações:\nAWS Cloud\nML Intro\n\nOutro" =
      ["Certificações:\nAWS Cloud"] := by decide

example : certSectionMatches "Certifications\nAWS Certified" = [] := by decide

example :
    certSectionMatches "certificatoes \n1 curso\n2 dias\n\nx" =
      ["certificatoes \n1 curso\n2 dias"] := by decide

example :
    extractCertifications "Certificações:\nAWS Cloud\nML Intro\n\nOutro" =
      [("aws_cloud", { name := "AWS Cloud", type := "course_completion",
                       extracted_from_pdf := true })] := by decide

/-! ## Language, education and skill extractors, and `parseExtractedText` -/

def programmingLanguagesList : List String :=
  ["javascript", "python", "java", "c++", "c#", "ruby", "go", "rust",
   "typescript", "php", "swift", "kotlin", "scala", "r", "matlab",
   "html", "css", "sql", "bash", "shell"]

def skillsKeywordsList : List String :=
  ["docker", "kubernetes", "aws", "azure", "gcp", "linux", "windows",
   "git", "jenkins", "terraform", "ansible", "mongodb", "postgresql",
   "mysql", "redis", "elasticsearch", "nginx", "apache"]

/-- The fixed education entry emitted when both institution and field-of-study
phrases occur in the lower-cased text. -/
def upeEntry : EduEntry :=
  { degree := "Bachelor of Engineering", field := "Computer Engineering",
    institution := "Universidade de Pernambuco (UPE)",
    location := "Recife, Pernambuco, Brasil",
    start_date := "April 2024", end_date := "December 2028",
    status := "in_progress", extracted_from_pdf := true }

/-- The whole `parseExtractedText`: contact, education, certification,
language and skill extraction assembled into an optional-field `ProfileData`.  A
category's field is present only when its extraction found something. -/
def parseExtractedText (text : String) : ProfileData :=
  let textLower := jsToLower text
  let contactInfo := extractContacts text
  let educationData : List (String × EduEntry) :=
    if containsSubstr textLower "engenharia da computação" &&
        containsSubstr textLower "universidade de pernambuco" then
      [("computer_engineering_upe", upeEntry)]
    else []
  let certifications := extractCertifications text
  let foundLanguages :=
    (programmingLanguagesList.filter (fun lang => containsSubstr textLower lang)).map
      capitalizeFirst
  let foundSkills :=
    (skillsKeywordsList.filter (fun skill => containsSubstr textLower skill)).map
      capitalizeFirst
  { name := none, facts := none, projects := none, professional_experience := none,
    academical_research := none, memberships := none, github_stats := none,
    contact := if contactInfo.length > 0 then some contactInfo else none,
    superior_education :=
      if educationData.length > 0 then some educationData else none,
    certifications :=
      if certifications.length > 0 then some certifications else none,
    languages :=
      if foundLanguages.length > 0 then
        some (foundLanguages.map (fun lang =>
          { name := lang, proficiency := "intermediate",
            context := some "Extracted from PDF" }))
      else none,
    technical_skills :=
      if foundSkills.length > 0 then
        some { operating_systems := none, programming_languages := none,
               areas_of_expertise := none, tools_and_technologies := some foundSkills }
      else none }

example :
    (parseExtractedText "r").languages =
      some [{ name := "R", proficiency := "intermediate",
              context := some "Extracted from PDF" }] := by decide

example : (parseExtractedText "r").contact = none := by decide

/-! ## Merge engine (`mergeProfileData`)

The source copies the current profile and then runs five sequential per-field
update blocks; each block touches exactly one field, so the function is the
composition of five single-field updates.  JavaScript object spread
`{...a, ...b}` on string-keyed maps is `jsSpread`: the keys of `a` keep their
positions with values overwritten from `b`, and keys of `b` not in `a` are
appended in `b`'s order. -/

/-- The update a spread applies to an existing entry: if `b` also carries the
key, the value is overwritten with `b`'s (first) value for it. -/
def spreadUpd {α : Type} (b : List (String × α)) (p : String × α) : String × α :=
  match b.find? (fun q => q.1 == p.1) with
  | some q => (p.1, q.2)
  | none => p

/-- `{...a, ...b}` for string-keyed association lists. -/
def jsSpread {α : Type} (a b : List (String × α)) : List (String × α) :=
  a.map (spreadUpd b) ++ b.filter (fun q => !(a.any (fun p => p.1 == q.1)))

/-- The `extractedData.contact` block: append the incoming contacts that are
not already present by exact match. -/
def mergeContact (m e : ProfileData) : ProfileData :=
  match e.contact with
  | none => m
  | some ec =>
    let existingContacts := m.contact.getD []
    let newContacts := ec.filter (fun c => !existingContacts.contains c)
    { m with contact := some (existingContacts ++ newContacts) }

/-- The `extractedData.languages` block: append the incoming entries whose
lower-cased name is unseen. -/
def mergeLanguages (m e : ProfileData) : ProfileData :=
  match e.languages with
  | none => m
  | some el =>
    let existingLanguages := m.languages.getD []
    let existingLanguageNames := existingLanguages.map (fun lang => jsToLower lang.name)
    let newLanguages :=
      el.filter (fun lang => !existingLanguageNames.contains (jsToLower lang.name))
    { m with languages := some (existingLanguages ++ newLanguages) }

/-- The `extractedData.superior_education` block:
`{...mergedProfile.superior_education, ...extractedData.superior_education}`. -/
def mergeEducation (m e : ProfileData) : ProfileData :=
  match e.superior_education with
  | none => m
  | some ee =>
    { m with superior_education := some (jsSpread (m.superior_education.getD []) ee) }

/-- The `extractedData.certifications` block:
`{...mergedProfile.certifications, ...extractedData.certifications}`. -/
def mergeCertifications (m e : ProfileData) : ProfileData :=
  match e.certifications with
  | none => m
  | some ec =>
    { m with certifications := some (jsSpread (m.certifications.getD []) ec) }

/-- The all-absent `technical_skills` object (`{}`). -/
def emptySkills : TechnicalSkills :=
  { operating_systems := none, programming_languages := none,
    areas_of_expertise := none, tools_and_technologies := none }

/-- Object spread `{...existingSkills, ...incoming}` at the level of the four
optional sub-lists: a sub-list present in the incoming fragment replaces the
existing one wholesale; an absent sub-list leaves the existing one. -/
def spreadSkills (e f : TechnicalSkills) : TechnicalSkills :=
  { operating_systems :=
      match f.operating_systems with
      | some v => some v
      | none => e.operating_systems,
    programming_languages :=
      match f.programming_languages with
      | some v => some v
      | none => e.programming_languages,
    areas_of_expertise :=
      match f.areas_of_expertise with
      | some v => some v
      | none => e.areas_of_expertise,
    tools_and_technologies :=
      match f.tools_and_technologies with
      | some v => some v
      | none => e.tools_and_technologies }

/-- The `extractedData.technical_skills` block. -/
def mergeSkills (m e : ProfileData) : ProfileData :=
  match e.technical_skills with
  | none => m
  | some ts =>
    { m with technical_skills := some (spreadSkills (m.technical_skills.getD emptySkills) ts) }

/-- `mergeProfileData(currentProfile, extractedData)`: the five sequential
field updates applied to a copy of the current profile. -/
def mergeProfileData (currentProfile extractedData : ProfileData) : ProfileData :=
  mergeSkills
    (mergeCertifications
      (mergeEducation
        (mergeLanguages
          (mergeContact currentProfile extractedData) extractedData) extractedData)
      extractedData) extractedData

/-! ## Persistence (`saveProfile`)

The file system is modelled as a path-to-content association; the two
`fs` primitives either fail, as dictated by an environment oracle, or perform
their effect.  A failing primitive leaves the file system unchanged and the
`try`/`catch` of `saveProfile` rethrows, so a copy failure aborts before the
main write. -/

/-- Which primitive calls fail in a given run. -/
structure FsOracle where
  copyFails : String → String → Bool
  writeFails : String → String → Bool

/-- Abstract file-system errors surfaced by the primitives. -/
inductive FsError where
  | copyFailed : FsError
  | writeFailed : FsError
deriving DecidableEq, Repr

/-- Path-to-content store. -/
abbrev FileSystem := List (String × String)

def fsRead (fs : FileSystem) (p : String) : Option String :=
  (List.find? (fun q => q.1 == p) fs).map Prod.snd

/-- Writing prepends the new version; `fsRead` returns the most recent write,
which models an overwriting store. -/
def fsWrite (fs : FileSystem) (p c : String) : FileSystem :=
  (p, c) :: fs

/-- `fs.copyFileSync(src, dst)`: fails (throwing) when the oracle says so or
when the source is missing; otherwise writes the source's bytes to `dst`. -/
def copyFileSync (o : FsOracle) (fs : FileSystem) (src dst : String) :
    Option FsError × FileSystem :=
  if o.copyFails src dst then (some FsError.copyFailed, fs)
  else
    match fsRead fs src with
    | some c => (none, fsWrite fs dst c)
    | none => (some FsError.copyFailed, fs)

/-- `fs.writeFileSync(p, content)`. -/
def writeFileSync (o : FsOracle) (fs : FileSystem) (p c : String) :
    Option FsError × FileSystem :=
  if o.writeFails p c then (some FsError.writeFailed, fs)
  else (none, fsWrite fs p c)

/-- `saveProfile(profile)`: back up the stored record to
`profilePath + ".backup." + timestamp` via `copyFileSync`, then write the
serialized profile; the `catch` rethrows the first error, so a copy failure
propagates and the write is never attempted.  `JSON.stringify(profile, null, 2)`
is modelled by the `serialize` parameter. -/
def saveProfile (o : FsOracle) (fs : FileSystem) (profilePath : String)
    (timestamp : Nat) (serialize : ProfileData → String) (profile : ProfileData) :
    Option FsError × FileSystem :=
  let backupPath := profilePath ++ ".backup." ++ toString timestamp
  match copyFileSync o fs profilePath backupPath with
  | (some e, fs') => (some e, fs')
  | (none, fs1) => writeFileSync o fs1 profilePath (serialize profile)

example :
    mergeProfileData
      { emptyProfile with
          certifications := some [("aws_certified",
            { name := "Curated", type := "manual", extracted_from_pdf := false })] }
      { emptyProfile with
          certifications := some [("aws_certified",
            { name := "Incoming", type := "course_completion", extracted_from_pdf := true })] }
      = { emptyProfile with
            certifications := some [("aws_certified",
              { name := "Incoming", type := "course_completion", extracted_from_pdf := true })] } := by
  decide

/-! ## Helper lemmas: deduplication -/

theorem jsIndexOf_get? (x : String) :
    ∀ l : List String, x ∈ l → l[jsIndexOf l x]? = some x := by
  intro l
  induction l with
  | nil => intro h; cases h
  | cons y t ih =>
    intro hx
    by_cases h : (y == x) = true
    · simp [jsIndexOf, h, beq_iff_eq.mp h]
    · have hxt : x ∈ t := by
        rcases List.mem_cons.mp hx with h' | h'
        · exact absurd (by simp [h']) h
        · exact h'
      simp [jsIndexOf, h, ih hxt]

theorem jsDedup_sublist (l : List String) : List.Sublist (jsDedup l) l := by
  have h1 : List.Sublist (l.enum.filter (fun p => jsIndexOf l p.2 == p.1)) l.enum :=
    List.filter_sublist l.enum
  have h2 := h1.map Prod.snd
  rw [List.enum_map_snd] at h2
  exact h2

theorem mem_jsDedup (l : List String) (x : String) : x ∈ jsDedup l ↔ x ∈ l := by
  constructor
  · intro h
    exact (jsDedup_sublist l).subset h
  · intro h
    have hget : l[jsIndexOf l x]? = some x := jsIndexOf_get? x l h
    have henum : (jsIndexOf l x, x) ∈ l.enum := by
      rw [List.mk_mem_enum_iff_getElem?]
      exact hget
    refine List.mem_map.mpr ⟨(jsIndexOf l x, x), List.mem_filter.mpr ⟨henum, ?_⟩, rfl⟩
    exact beq_self_eq_true _

theorem jsDedup_nodup (l : List String) : (jsDedup l).Nodup := by
  have henum : l.enum.Nodup := (List.nodup_enum_map_fst l).of_map
  have hfil : (l.enum.filter (fun p => jsIndexOf l p.2 == p.1)).Nodup :=
    henum.filter _
  refine hfil.map_on ?_
  intro p hp q hq hsnd
  have hp' := (List.mem_filter.mp hp).2
  have hq' := (List.mem_filter.mp hq).2
  have hp'' : jsIndexOf l p.2 = p.1 := by exact_mod_cast beq_iff_eq.mp hp'
  have hq'' : jsIndexOf l q.2 = q.1 := by exact_mod_cast beq_iff_eq.mp hq'
  exact Prod.ext (by rw [← hp'', ← hq'', hsnd]) hsnd

/-! ## Helper lemmas: object spread -/

theorem spreadUpd_fst {α : Type} (b : List (String × α)) (p : String × α) :
    (spreadUpd b p).1 = p.1 := by
  unfold spreadUpd
  cases b.find? (fun q => q.1 == p.1) <;> rfl

theorem spreadUpd_idem {α : Type} (b : List (String × α)) (p : String × α) :
    spreadUpd b (spreadUpd b p) = spreadUpd b p := by
  unfold spreadUpd
  cases h : b.find? (fun q => q.1 == p.1) with
  | none => simp [h]
  | some q => simp [h]

/-- In a map with no duplicate keys, searching for a member's key finds that
member. -/
theorem find?_key_eq_self {α : Type} {b : List (String × α)} {p : String × α}
    (hb : (b.map Prod.fst).Nodup) (hp : p ∈ b) :
    b.find? (fun q => q.1 == p.1) = some p := by
  induction b with
  | nil => cases hp
  | cons x t ih =>
    by_cases hx : (x.1 == p.1) = true
    · have hxp : x = p := by
        rcases List.mem_cons.mp hp with h' | h'
        · exact h'.symm
        · exfalso
          have hkey : p.1 ∈ t.map Prod.fst := List.mem_map_of_mem Prod.fst h'
          have : x.1 = p.1 := beq_iff_eq.mp hx
          rw [List.map_cons, List.nodup_cons] at hb
          exact hb.1 (this ▸ hkey)
      simp [List.find?_cons, hx, hxp]
    · have hpt : p ∈ t := by
        rcases List.mem_cons.mp hp with h' | h'
        · exact absurd (by simp [h']) hx
        · exact h'
      rw [List.map_cons, List.nodup_cons] at hb
      simp [List.find?_cons, hx, ih hb.2 hpt]

theorem jsSpread_idem {α : Type} (a b : List (String × α))
    (hb : (b.map Prod.fst).Nodup) :
    jsSpread (jsSpread a b) b = jsSpread a b := by
  have hmap : (jsSpread a b).map (spreadUpd b) = jsSpread a b := by
    have : ∀ p ∈ jsSpread a b, spreadUpd b p = p := by
      intro p hp
      rcases List.mem_append.mp hp with h | h
      · rcases List.mem_map.mp h with ⟨p₀, _, rfl⟩
        exact spreadUpd_idem b p₀
      · have hpb : p ∈ b := (List.mem_filter.mp h).1
        unfold spreadUpd
        rw [find?_key_eq_self hb hpb]
    calc (jsSpread a b).map (spreadUpd b)
        = (jsSpread a b).map id := List.map_congr_left this
      _ = jsSpread a b := List.map_id _
  have hfil : b.filter (fun q => !((jsSpread a b).any (fun p => p.1 == q.1))) = [] := by
    refine List.filter_eq_nil_iff.mpr ?_
    intro q hq
    have hany : (jsSpread a b).any (fun p => p.1 == q.1) = true := by
      by_cases ha : a.any (fun p => p.1 == q.1) = true
      · rcases List.any_eq_true.mp ha with ⟨p₀, hp₀, hbeq⟩
        refine List.any_eq_true.mpr ⟨spreadUpd b p₀, ?_, ?_⟩
        · exact List.mem_append.mpr (Or.inl (List.mem_map_of_mem _ hp₀))
        · rw [spreadUpd_fst]; exact hbeq
      · refine List.any_eq_true.mpr ⟨q, ?_, beq_self_eq_true _⟩
        refine List.mem_append.mpr (Or.inr (List.mem_filter.mpr ⟨hq, ?_⟩))
        simp [ha]
    simp [hany]
  conv_lhs => rw [jsSpread, hmap, hfil, List.append_nil]

/-- `find?` **commutes** with the spread update map, because the update keeps
keys in place. -/
theorem find?_map_spreadUpd {α : Type} (b : List (String × α)) (k : String) :
    ∀ a : List (String × α),
      (a.map (spreadUpd b)).find? (fun q => q.1 == k) =
        (a.find? (fun q => q.1 == k)).map (spreadUpd b) := by
  intro a
  induction a with
  | nil => rfl
  | cons x t ih =>
    by_cases hx : (x.1 == k) = true
    · simp [List.find?_cons, spreadUpd_fst, hx]
    · simp [List.find?_cons, spreadUpd_fst, hx, ih]

/-- After a spread, looking a key up yields the incoming map's (first) entry
for it whenever the incoming map carries the key: last writer wins. -/
theorem jsSpread_lookup {α : Type} (a b : List (String × α)) (k : String) (v : α)
    (hfind : b.find? (fun q => q.1 == k) = some (k, v)) :
    (jsSpread a b).find? (fun q => q.1 == k) = some (k, v) := by
  rw [jsSpread, List.find?_append, find?_map_spreadUpd]
  cases hafind : a.find? (fun q => q.1 == k) with
  | some p₀ =>
    have hp₀ : (p₀.1 == k) = true := by simpa using List.find?_some hafind
    have hk : p₀.1 = k := beq_iff_eq.mp hp₀
    have : spreadUpd b p₀ = (k, v) := by
      unfold spreadUpd
      rw [hk, hfind]
    simp [this]
  | none =>
    have hnone : ∀ p ∈ a, ¬ (p.1 == k) = true := by
      intro p hp
      have := List.find?_eq_none.mp hafind p hp
      simpa using this
    simp only [Option.map_none', Option.none_or]
    induction b with
    | nil => cases hfind
    | cons x t ih =>
      by_cases hx : (x.1 == k) = true
      · have hxkv : x = (k, v) := by
          simpa [List.find?_cons, hx] using hfind
        have hxpass : (a.any fun p => p.1 == k) = false := by
          refine List.any_eq_false.mpr ?_
          intro p hp
          simpa using hnone p hp
        simp [List.filter_cons, hxkv, hxpass, List.find?_cons]
      · have hfind' : t.find? (fun q => q.1 == k) = some (k, v) := by
          simpa [List.find?_cons, hx] using hfind
        cases hxpass : a.any (fun p => p.1 == x.1) with
        | true => simpa [List.filter_cons, hxpass] using ih hfind'
        | false =>
          have hkeep : List.filter (fun q => !a.any fun p => p.1 == q.1) (x :: t) =
              x :: List.filter (fun q => !a.any fun p => p.1 == q.1) t := by
            simp [List.filter_cons, hxpass]
          rw [hkeep, List.find?_cons_of_neg]
          · exact ih hfind'
          · simp [hx]

/-! ## Helper lemmas: merge characterization -/

/-- Closed form of `mergeProfileData`: the five field updates on a copy of the
current profile. -/
theorem mergeProfileData_eq (c f : ProfileData) :
    mergeProfileData c f =
      { c with
        contact :=
          match f.contact with
          | none => c.contact
          | some ec =>
            some ((c.contact.getD []) ++
              ec.filter (fun x => !(c.contact.getD []).contains x)),
        languages :=
          match f.languages with
          | none => c.languages
          | some el =>
            some ((c.languages.getD []) ++
              el.filter (fun lang =>
                !((c.languages.getD []).map (fun g => jsToLower g.name)).contains
                  (jsToLower lang.name))),
        superior_education :=
          match f.superior_education with
          | none => c.superior_education
          | some ee => some (jsSpread (c.superior_education.getD []) ee),
        certifications :=
          match f.certifications with
          | none => c.certifications
          | some ec => some (jsSpread (c.certifications.getD []) ec),
        technical_skills :=
          match f.technical_skills with
          | none => c.technical_skills
          | some ts => some (spreadSkills (c.technical_skills.getD emptySkills) ts) } := by
  cases h1 : f.contact <;> cases h2 : f.languages <;> cases h3 : f.superior_education <;>
    cases h4 : f.certifications <;> cases h5 : f.technical_skills <;>
      simp [mergeProfileData, mergeContact, mergeLanguages, mergeEducation,
            mergeCertifications, mergeSkills, h1, h2, h3, h4, h5]

/-- Appending the fresh values and filtering again leaves nothing new:
the second filter of the contact merge is empty. -/
theorem filter_contains_append_self (E l : List String) :
    l.filter (fun x => !(E ++ l.filter (fun y => !E.contains y)).contains x) = [] := by
  refine List.filter_eq_nil_iff.mpr ?_
  intro x hx
  simp only [Bool.not_eq_true', Bool.not_eq_false]
  by_cases hE : E.contains x = true
  · exact List.elem_iff.mpr (List.mem_append_left _ (List.elem_iff.mp hE))
  · refine List.elem_iff.mpr (List.mem_append_right _ ?_)
    exact List.mem_filter.mpr ⟨hx, by simpa using hE⟩

/-- Same shape for the languages merge, which compares lower-cased names. -/
theorem filter_key_append_self {α : Type} (key : α → String) (E l : List α) :
    l.filter (fun x =>
      !((E ++ l.filter (fun y => !(E.map key).contains (key y))).map key).contains (key x)) =
      [] := by
  refine List.filter_eq_nil_iff.mpr ?_
  intro x hx
  simp only [Bool.not_eq_true', Bool.not_eq_false]
  rw [List.map_append]
  by_cases hE : (E.map key).contains (key x) = true
  · exact List.elem_iff.mpr (List.mem_append_left _ (List.elem_iff.mp hE))
  · refine List.elem_iff.mpr (List.mem_append_right _ ?_)
    refine List.mem_map_of_mem key (List.mem_filter.mpr ⟨hx, ?_⟩)
    simp only [Bool.not_eq_true']
    refine (Bool.not_eq_true _).mp ?_
    intro hcon
    exact hE hcon

/-- Object spread on `technical_skills` is idempotent. -/
theorem spreadSkills_idem (e f : TechnicalSkills) :
    spreadSkills (spreadSkills e f) f = spreadSkills e f := by
  obtain ⟨a, b, c, d⟩ := f
  cases a <;> cases b <;> cases c <;> cases d <;> rfl

/-! ## Claim C1: map-merge conflict policy -/

/-- The current profile of the C1 counterexample: a curated certification
under key `aws_certified`. -/
def c1Current : ProfileData :=
  { emptyProfile with
    certifications := some [("aws_certified",
      { name := "AWS Certified (curated)", type := "manual",
        extracted_from_pdf := false })],
    superior_education := some [("computer_engineering_upe",
      { upeEntry with institution := "curated institution" })] }

/-- The incoming fragment of the C1 counterexample: different-content entries
under the same keys. -/
def c1Incoming : ProfileData :=
  { emptyProfile with
    certifications := some [("aws_certified",
      { name := "AWS Certified Cloud Practitioner", type := "course_completion",
        extracted_from_pdf := true })],
    superior_education := some [("computer_engineering_upe", upeEntry)] }

/-- C1 (counterexample): with an existing certification keyed `aws_certified`
and an incoming different-content entry under the same key, `mergeProfileData`
does **not** keep the existing entry — the merged map carries the incoming
entry, so the claimed first-writer-wins policy is false; the education map
behaves the same way. -/
theorem C1_counterexample :
    (mergeProfileData c1Current c1Incoming).certifications =
      some [("aws_certified",
        { name := "AWS Certified Cloud Practitioner", type := "course_completion",
          extracted_from_pdf := true })] ∧
    (mergeProfileData c1Current c1Incoming).certifications ≠ c1Current.certifications ∧
    (mergeProfileData c1Current c1Incoming).superior_education ≠
      c1Current.superior_education := by
  refine ⟨by decide, by decide, by decide⟩

/-- C1 (amended): when the incoming fragment's certifications (or education)
map carries a key already present in the current record's map, the merge keeps
the key but **overwrites** the stored entry with the incoming one
(last-writer-wins): looking the key up in the merged map yields the incoming
entry. -/
theorem C1_merge_last_writer_wins :
    (∀ (cur frag : ProfileData) (fc : List (String × CertEntry)) (k : String) (v : CertEntry),
      frag.certifications = some fc →
      (cur.certifications.getD []).any (fun p => p.1 == k) = true →
      fc.find? (fun q => q.1 == k) = some (k, v) →
      ∃ m, (mergeProfileData cur frag).certifications = some m ∧
        m.find? (fun q => q.1 == k) = some (k, v)) ∧
    (∀ (cur frag : ProfileData) (fe : List (String × EduEntry)) (k : String) (v : EduEntry),
      frag.superior_education = some fe →
      (cur.superior_education.getD []).any (fun p => p.1 == k) = true →
      fe.find? (fun q => q.1 == k) = some (k, v) →
      ∃ m, (mergeProfileData cur frag).superior_education = some m ∧
        m.find? (fun q => q.1 == k) = some (k, v)) := by
  constructor
  · intro cur frag fc k v hfrag _ hfind
    rw [mergeProfileData_eq, hfrag]
    exact ⟨_, rfl, jsSpread_lookup _ _ _ _ hfind⟩
  · intro cur frag fe k v hfrag _ hfind
    rw [mergeProfileData_eq, hfrag]
    exact ⟨_, rfl, jsSpread_lookup _ _ _ _ hfind⟩

/-- Witness for C1: the amended last-writer-wins law applied at the concrete
counterexample input. -/
theorem C1_merge_last_writer_wins_witness :
    ∃ m, (mergeProfileData c1Current c1Incoming).certifications = some m ∧
      m.find? (fun q => q.1 == "aws_certified") =
        some ("aws_certified",
          { name := "AWS Certified Cloud Practitioner", type := "course_completion",
            extracted_from_pdf := true }) :=
  C1_merge_last_writer_wins.1 c1Current c1Incoming
    [("aws_certified",
      { name := "AWS Certified Cloud Practitioner", type := "course_completion",
        extracted_from_pdf := true })]
    "aws_certified"
    { name := "AWS Certified Cloud Practitioner", type := "course_completion",
      extracted_from_pdf := true }
    (by decide) (by decide) (by decide)

/-! ## Claim C2: merge idempotence -/

/-- C2: `mergeProfileData` is idempotent — merging the same fragment twice
into the same base yields the record the first merge produced, across all
field categories.  The two `Nodup` hypotheses state that the fragment's
map-typed fields have no duplicate keys, which is an invariant of the
JavaScript objects the association lists embed. -/
theorem C2_merge_idempotent (R F : ProfileData)
    (hedu : ((F.superior_education.getD []).map Prod.fst).Nodup)
    (hcert : ((F.certifications.getD []).map Prod.fst).Nodup) :
    mergeProfileData (mergeProfileData R F) F = mergeProfileData R F := by
  apply ProfileData.ext
  case name => rw [mergeProfileData_eq, mergeProfileData_eq]
  case facts => rw [mergeProfileData_eq, mergeProfileData_eq]
  case projects => rw [mergeProfileData_eq, mergeProfileData_eq]
  case professional_experience => rw [mergeProfileData_eq, mergeProfileData_eq]
  case academical_research => rw [mergeProfileData_eq, mergeProfileData_eq]
  case memberships => rw [mergeProfileData_eq, mergeProfileData_eq]
  case github_stats => rw [mergeProfileData_eq, mergeProfileData_eq]
  case contact =>
    rw [mergeProfileData_eq (mergeProfileData R F) F, mergeProfileData_eq R F]
    cases h1 : F.contact with
    | none => simp [mergeProfileData_eq, h1]
    | some ec =>
      simp only [mergeProfileData_eq, h1, Option.getD_some, Option.some.injEq]
      rw [filter_contains_append_self (R.contact.getD []) ec, List.append_nil]
  case languages =>
    rw [mergeProfileData_eq (mergeProfileData R F) F, mergeProfileData_eq R F]
    cases h2 : F.languages with
    | none => simp [mergeProfileData_eq, h2]
    | some el =>
      simp only [mergeProfileData_eq, h2, Option.getD_some, Option.some.injEq]
      rw [filter_key_append_self (fun g => jsToLower g.name) (R.languages.getD []) el,
        List.append_nil]
  case superior_education =>
    rw [mergeProfileData_eq (mergeProfileData R F) F, mergeProfileData_eq R F]
    cases h3 : F.superior_education with
    | none => simp [mergeProfileData_eq, h3]
    | some ee =>
      simp only [mergeProfileData_eq, h3, Option.getD_some, Option.some.injEq]
      exact jsSpread_idem _ ee (by simpa [h3] using hedu)
  case certifications =>
    rw [mergeProfileData_eq (mergeProfileData R F) F, mergeProfileData_eq R F]
    cases h4 : F.certifications with
    | none => simp [mergeProfileData_eq, h4]
    | some ec =>
      simp only [mergeProfileData_eq, h4, Option.getD_some, Option.some.injEq]
      exact jsSpread_idem _ ec (by simpa [h4] using hcert)
  case technical_skills =>
    rw [mergeProfileData_eq (mergeProfileData R F) F, mergeProfileData_eq R F]
    cases h5 : F.technical_skills with
    | none => simp [mergeProfileData_eq, h5]
    | some ts =>
      simp only [mergeProfileData_eq, h5, Option.getD_some, Option.some.injEq]
      exact spreadSkills_idem _ ts

/-- The base record of the C2 witness. -/
def c2Base : ProfileData :=
  { emptyProfile with
    contact := some ["https://github.com/alice"],
    languages := some [{ name := "Python", proficiency := "advanced", context := none }],
    certifications := some [("k",
      { name := "K", type := "manual", extracted_from_pdf := false })] }

/-- The fragment of the C2 witness, exercising every merged category. -/
def c2Frag : ProfileData :=
  { emptyProfile with
    contact := some ["https://github.com/alice", "alice@example.com"],
    languages := some [{ name := "python", proficiency := "intermediate",
                         context := some "Extracted from PDF" }],
    certifications := some [("k",
      { name := "K2", type := "course_completion", extracted_from_pdf := true }),
      ("j", { name := "J", type := "course_completion", extracted_from_pdf := true })],
    superior_education := some [("computer_engineering_upe", upeEntry)],
    technical_skills := some { operating_systems := none,
                               programming_languages := none,
                               areas_of_expertise := none,
                               tools_and_technologies := some ["Docker"] } }

/-- Witness for C2: idempotence applied at a concrete record and fragment
exercising every merged category. -/
theorem C2_merge_idempotent_witness :
    mergeProfileData (mergeProfileData c2Base c2Frag) c2Frag =
      mergeProfileData c2Base c2Frag :=
  C2_merge_idempotent c2Base c2Frag (by decide) (by decide)

/-! ## Claim C9: the merge's frame -/

/-- C9: `mergeProfileData` never touches `name`, `facts`, `projects`,
`professional_experience`, `academical_research`, `memberships` or
`github_stats` — those fields of the merged record are exactly the current
record's, whatever the fragment carries. -/
theorem C9_merge_frame (c f : ProfileData) :
    (mergeProfileData c f).name = c.name ∧
    (mergeProfileData c f).facts = c.facts ∧
    (mergeProfileData c f).projects = c.projects ∧
    (mergeProfileData c f).professional_experience = c.professional_experience ∧
    (mergeProfileData c f).academical_research = c.academical_research ∧
    (mergeProfileData c f).memberships = c.memberships ∧
    (mergeProfileData c f).github_stats = c.github_stats := by
  rw [mergeProfileData_eq]
  exact ⟨rfl, rfl, rfl, rfl, rfl, rfl, rfl⟩

/-! ## Claim C3: key derivation -/

/-- A character already produced by `deriveKey` (a lowercase ASCII letter,
a digit, or an underscore) is fixed by the lower-casing step. -/
theorem jsToLowerChar_fixed {c : Char}
    (h : ('a' ≤ c ∧ c ≤ 'z') ∨ ('0' ≤ c ∧ c ≤ '9') ∨ c = '_') :
    jsToLowerChar c = c := by
  unfold jsToLowerChar
  rw [if_neg]
  intro hn
  rcases h with ⟨h1, h2⟩ | ⟨h1, h2⟩ | rfl
  · have n1 : 97 ≤ c.toNat := h1
    have n2 : c.toNat ≤ 122 := h2
    rcases hn with ⟨_, hz⟩ | ⟨hc, _⟩
    · have : c.toNat ≤ 90 := hz
      omega
    · omega
  · have n1 : 48 ≤ c.toNat := h1
    have n2 : c.toNat ≤ 57 := h2
    rcases hn with ⟨ha, _⟩ | ⟨hc, _⟩
    · have : 65 ≤ c.toNat := ha
      omega
    · omega
  · revert hn
    decide

/-- The per-character replacement of `deriveKey`. -/
def deriveKeyChar (c : Char) : Char :=
  if ('a' ≤ c ∧ c ≤ 'z') ∨ ('0' ≤ c ∧ c ≤ '9') then c else '_'

theorem deriveKey_data (name : String) :
    (deriveKey name).data = name.data.map (fun c => deriveKeyChar (jsToLowerChar c)) := by
  simp [deriveKey, deriveKeyChar, jsToLower]

/-- Every output character of `deriveKey` is a lowercase letter, a digit, or
an underscore. -/
theorem deriveKeyChar_class (c : Char) :
    ('a' ≤ deriveKeyChar c ∧ deriveKeyChar c ≤ 'z') ∨
    ('0' ≤ deriveKeyChar c ∧ deriveKeyChar c ≤ '9') ∨ deriveKeyChar c = '_' := by
  unfold deriveKeyChar
  by_cases h : ('a' ≤ c ∧ c ≤ 'z') ∨ ('0' ≤ c ∧ c ≤ '9')
  · rw [if_pos h]
    rcases h with h | h
    · exact Or.inl h
    · exact Or.inr (Or.inl h)
  · rw [if_neg h]
    exact Or.inr (Or.inr rfl)

/-- C3 (counterexample): the derivation does **not** collapse a non-alphanumeric
run to a single separator and does not drop trailing punctuation, so the two
names the claim says collide derive different keys. -/
theorem C3_counterexample :
    deriveKey "AWS Certified!" = "aws_certified_" ∧
    deriveKey "aws certified" = "aws_certified" ∧
    deriveKey "AWS Certified!" ≠ deriveKey "aws certified" := by
  exact ⟨by decide, by decide, by decide⟩

/-- C3 (amended): key derivation is deterministic and idempotent
(`deriveKey (deriveKey n) = deriveKey n`), lower-cases the name and replaces
every non-alphanumeric **character** (not run) with one underscore — in
particular it preserves length, every output character is a lowercase letter,
digit or underscore, and `"AWS Certified"` (without the `!`) collides with
`"aws certified"` while `"AWS Certified!"` does not. -/
theorem C3_deriveKey_per_char (name : String) :
    deriveKey (deriveKey name) = deriveKey name ∧
    (deriveKey name).length = name.length ∧
    (∀ c ∈ (deriveKey name).data,
      ('a' ≤ c ∧ c ≤ 'z') ∨ ('0' ≤ c ∧ c ≤ '9') ∨ c = '_') ∧
    deriveKey "AWS Certified" = deriveKey "aws certified" ∧
    deriveKey "AWS Certified!" ≠ deriveKey "aws certified" := by
  refine ⟨?_, ?_, ?_, by decide, by decide⟩
  · have hchar : ∀ c ∈ (deriveKey name).data,
        deriveKeyChar (jsToLowerChar c) = c := by
      intro c hc
      rw [deriveKey_data] at hc
      rcases List.mem_map.mp hc with ⟨x, _, rfl⟩
      set d := deriveKeyChar (jsToLowerChar x) with hd
      have hclass := deriveKeyChar_class (jsToLowerChar x)
      rw [← hd] at hclass
      rw [jsToLowerChar_fixed hclass]
      unfold deriveKeyChar
      rcases hclass with h | h | h
      · rw [if_pos (Or.inl h)]
      · rw [if_pos (Or.inr h)]
      · rw [h]
        decide
    have hdata : (deriveKey (deriveKey name)).data = (deriveKey name).data := by
      rw [deriveKey_data (deriveKey name)]
      calc (deriveKey name).data.map (fun c => deriveKeyChar (jsToLowerChar c))
          = (deriveKey name).data.map id := List.map_congr_left hchar
        _ = (deriveKey name).data := List.map_id _
    exact String.ext hdata
  · rw [String.length, String.length, deriveKey_data, List.length_map]
  · intro c hc
    rw [deriveKey_data] at hc
    rcases List.mem_map.mp hc with ⟨x, _, rfl⟩
    exact deriveKeyChar_class (jsToLowerChar x)

/-- Witness for C3: the amended derivation law applied at a concrete name,
including the character-class clause at a concrete output character. -/
theorem C3_deriveKey_per_char_witness :
    deriveKey (deriveKey "AWS Certified!") = deriveKey "AWS Certified!" ∧
    (('a' ≤ 'a' ∧ 'a' ≤ 'z') ∨ ('0' ≤ 'a' ∧ 'a' ≤ '9') ∨ 'a' = '_') :=
  ⟨(C3_deriveKey_per_char "AWS Certified!").1,
   (C3_deriveKey_per_char "AWS Certified!").2.2.1 'a' (by decide)⟩

/-! ## Claim C4: look-ahead merge of wrapped certificate titles -/

/-- C4 (counterexample): the claim's condition is a disjunction (short, OR
lower-case start, OR `"Science"`), but a short next line starting with an
uppercase letter is **not** merged: after the candidate
`"AWS Certified Developer"`, the 8-character line `"Projects"` is neither
appended nor blanked, and is then independently processed into its own
candidate. -/
theorem C4_counterexample :
    "Projects".length < 15 ∧
    lookaheadMerge ["Certifications", "AWS Certified Developer", "Projects"] 1
        "AWS Certified Developer" =
      ("AWS Certified Developer",
       ["Certifications", "AWS Certified Developer", "Projects"]) ∧
    scanCertLines ["Certifications", "AWS Certified Developer", "Projects"] =
      [("aws_certified_developer",
        { name := "AWS Certified Developer", type := "course_completion",
          extracted_from_pdf := true }),
       ("projects",
        { name := "Projects", type := "course_completion",
          extracted_from_pdf := true })] :=
  ⟨by decide, by decide, by decide⟩

/-- C4 (amended): whenever a next line exists and its trimmed form is
non-empty **and** shorter than 15 characters **and** (starts with a lowercase
letter or is exactly `"Science"`), the look-ahead of the candidate scan
appends it to the candidate's name with a separating space and blanks it in
the line array; in particular
`["Certifications", "Microsoft Azure", "fundamentals"]` yields the single
candidate `"Microsoft Azure fundamentals"`. -/
theorem C4_lookahead_merge :
    (∀ (lines : List String) (index : Nat) (certName : String),
      index + 1 < lines.length →
      0 < (jsTrim ((lines.get? (index + 1)).getD "")).length →
      (jsTrim ((lines.get? (index + 1)).getD "")).length < 15 →
      (isLowerAZ (((jsTrim ((lines.get? (index + 1)).getD "")).data.head?).getD ' ') = true ∨
        jsTrim ((lines.get? (index + 1)).getD "") = "Science") →
      lookaheadMerge lines index certName =
        (certName ++ " " ++ jsTrim ((lines.get? (index + 1)).getD ""),
         lines.set (index + 1) "")) ∧
    scanCertLines ["Certifications", "Microsoft Azure", "fundamentals"] =
      [("microsoft_azure_fundamentals",
        { name := "Microsoft Azure fundamentals", type := "course_completion",
          extracted_from_pdf := true })] := by
  constructor
  · intro lines index certName h1 h2 h3 h4
    unfold lookaheadMerge
    rw [if_pos h1, if_pos]
    simp only [Bool.and_eq_true, decide_eq_true_eq, Bool.or_eq_true, beq_iff_eq]
    exact ⟨⟨h2, h3⟩, by tauto⟩
  · decide

/-- Witness for C4: the amended look-ahead law applied at the concrete
`["Certifications", "Microsoft Azure", "fundamentals"]` input. -/
theorem C4_lookahead_merge_witness :
    lookaheadMerge ["Certifications", "Microsoft Azure", "fundamentals"] 1
        "Microsoft Azure" =
      ("Microsoft Azure" ++ " " ++
        jsTrim ((["Certifications", "Microsoft Azure", "fundamentals"].get? 2).getD ""),
       ["Certifications", "Microsoft Azure", "fundamentals"].set 2 "") :=
  C4_lookahead_merge.1 ["Certifications", "Microsoft Azure", "fundamentals"] 1
    "Microsoft Azure" (by decide) (by decide) (by decide) (by decide)

/-! ## Claim C5: certification section boundary -/

/-- C5: on the line sequence `["Certifications", "AWS Certified Cloud
Practitioner", "Experience", "Random Company"]` the certification extractor
(line scan followed by the block pass) produces exactly the map with the
`aws_certified_cloud_practitioner` entry — it contains
`"AWS Certified Cloud Practitioner"` and no entry for `"Random Company"`:
the header line sets the section state and the `Experience` header clears it
before `"Random Company"` could use the contextual fallback. -/
theorem C5_section_boundary :
    extractCertifications
        "Certifications\nAWS Certified Cloud Practitioner\nExperience\nRandom Company" =
      [("aws_certified_cloud_practitioner",
        { name := "AWS Certified Cloud Practitioner", type := "course_completion",
          extracted_from_pdf := true })] ∧
    (extractCertifications
        "Certifications\nAWS Certified Cloud Practitioner\nExperience\nRandom Company").find?
      (fun p => p.2.name == "Random Company") = none :=
  ⟨by decide, by decide⟩

/-! ## Claims C6 and C7: contact list properties -/

/-- Any property of the matches an anchored matcher can return holds of every
match the global scan collects. -/
theorem globalScan_prop {f : List Char → Option (List Char × List Char)}
    {P : List Char → Prop}
    (hf : ∀ cs m r, f cs = some (m, r) → P m) :
    ∀ (fuel : Nat) (cs : List Char), ∀ m ∈ globalScan f fuel cs, P m := by
  intro fuel
  induction fuel with
  | zero => intro cs m hm; simp [globalScan] at hm
  | succ n ih =>
    intro cs m hm
    cases cs with
    | nil => simp [globalScan] at hm
    | cons c rest =>
      rw [globalScan] at hm
      cases hfc : f (c :: rest) with
      | none =>
        rw [hfc] at hm
        exact ih rest m hm
      | some pr =>
        rw [hfc] at hm
        rcases List.mem_cons.mp hm with rfl | hm'
        · exact hf _ _ _ (by rw [hfc])
        · exact ih pr.2 m hm'

/-- Every email match contains an `@`. -/
theorem emailMatchAt_has_at : ∀ cs m r, emailMatchAt cs = some (m, r) → '@' ∈ m := by
  intro cs m r h
  simp only [emailMatchAt] at h
  split at h
  · exact absurd h (by simp)
  · split at h
    · split at h
      · simp only [Option.some.injEq, Prod.mk.injEq] at h
        rw [← h.1]
        exact List.mem_append_right _ (List.mem_cons_self _ _)
      · exact absurd h (by simp)
    · exact absurd h (by simp)

/-- Every URL match starts with `h`. -/
theorem urlMatchAt_head : ∀ cs m r, urlMatchAt cs = some (m, r) → m.head? = some 'h' := by
  intro cs m r h
  simp only [urlMatchAt] at h
  split at h
  · split at h
    · exact absurd h (by simp)
    · simp only [Option.some.injEq, Prod.mk.injEq] at h
      rw [← h.1]
      rfl
  · split at h
    · split at h
      · exact absurd h (by simp)
      · simp only [Option.some.injEq, Prod.mk.injEq] at h
        rw [← h.1]
        rfl
    · exact absurd h (by simp)

theorem emailsOf_has_at (t : String) (s : String) (h : s ∈ emailsOf t) :
    '@' ∈ s.data := by
  unfold emailsOf jsMatchAll at h
  rcases List.mem_map.mp h with ⟨m, hm, rfl⟩
  exact globalScan_prop emailMatchAt_has_at _ _ m hm

theorem urlsOf_head (t : String) (s : String) (h : s ∈ urlsOf t) :
    s.data.head? = some 'h' := by
  unfold urlsOf jsMatchAll at h
  rcases List.mem_map.mp h with ⟨m, hm, rfl⟩
  exact globalScan_prop urlMatchAt_head _ _ m hm

theorem linkedinOf_head (t : String) (s : String) (h : s ∈ linkedinOf t) :
    s.data.head? = some 'h' := by
  unfold linkedinOf at h
  rcases List.mem_map.mp h with ⟨p, _, rfl⟩
  rw [String.data_append]
  rfl

theorem githubOf_head (t : String) (s : String) (h : s ∈ githubOf t) :
    s.data.head? = some 'h' := by
  unfold githubOf at h
  rcases List.mem_map.mp h with ⟨p, _, rfl⟩
  rw [String.data_append]
  rfl

theorem phonesOf_digits (t : String) (s : String) (h : s ∈ phonesOf t) :
    10 ≤ (s.data.filter Char.isDigit).length ∧
    (s.data.filter Char.isDigit).length ≤ 15 := by
  unfold phonesOf at h
  have hk := (List.mem_filter.mp h).2
  unfold keepPhone at hk
  simp only [Bool.and_eq_true, decide_eq_true_eq] at hk
  exact ⟨hk.1.1.1, hk.1.1.2⟩

/-- C6: no element of the extracted contact list is a standalone 4-digit
calendar-year string, and every phone match is kept only with 10–15 digits
after stripping non-digits.  Emails always contain `@`, URLs and normalized
social links start with `h`, and surviving phone matches have at least ten
digits, so no 4-character all-digit string can reach the output. -/
theorem C6_no_year_in_contacts (text : String) :
    (∀ s ∈ extractContacts text,
      ¬(s.length = 4 ∧ s.data.all Char.isDigit = true ∧
        (leadsWith ['1', '9'] s.data = true ∨ leadsWith ['2', '0'] s.data = true))) ∧
    (∀ s ∈ phonesOf text,
      10 ≤ (s.data.filter Char.isDigit).length ∧
      (s.data.filter Char.isDigit).length ≤ 15) := by
  refine ⟨?_, fun s hs => phonesOf_digits text s hs⟩
  rintro s hs ⟨hlen, hdig, _⟩
  have hdig' : ∀ c ∈ s.data, Char.isDigit c = true := List.all_eq_true.mp hdig
  have hs' : s ∈ contactsConcat text := (jsDedup_sublist _).subset hs
  have hlen' : s.data.length = 4 := hlen
  unfold contactsConcat at hs'
  rcases List.mem_append.mp hs' with hs' | hgh
  rotate_left
  · have := githubOf_head text s hgh
    have hh : 'h' ∈ s.data := List.mem_of_mem_head? this
    simpa using hdig' 'h' hh
  rcases List.mem_append.mp hs' with hs' | hli
  rotate_left
  · have := linkedinOf_head text s hli
    have hh : 'h' ∈ s.data := List.mem_of_mem_head? this
    simpa using hdig' 'h' hh
  rcases List.mem_append.mp hs' with hs' | hurl
  rotate_left
  · have := urlsOf_head text s hurl
    have hh : 'h' ∈ s.data := List.mem_of_mem_head? this
    simpa using hdig' 'h' hh
  rcases List.mem_append.mp hs' with hem | hph
  · have := emailsOf_has_at text s hem
    simpa using hdig' '@' this
  · have hb := (phonesOf_digits text s hph).1
    have hle : (s.data.filter Char.isDigit).length ≤ s.data.length :=
      List.length_filter_le _ _
    omega

/-- Witness for C6: the law applied to a concrete text at a concrete email
and a concrete kept phone number. -/
theorem C6_no_year_in_contacts_witness :
    "a@b.cd" ∈ extractContacts "a@b.cd +5581999990000" ∧
    ¬("a@b.cd".length = 4 ∧ "a@b.cd".data.all Char.isDigit = true ∧
      (leadsWith ['1', '9'] "a@b.cd".data = true ∨
        leadsWith ['2', '0'] "a@b.cd".data = true)) ∧
    (10 ≤ ("+5581999990000".data.filter Char.isDigit).length ∧
      ("+5581999990000".data.filter Char.isDigit).length ≤ 15) :=
  ⟨by decide,
   (C6_no_year_in_contacts "a@b.cd +5581999990000").1 "a@b.cd" (by decide),
   (C6_no_year_in_contacts "a@b.cd +5581999990000").2 "+5581999990000" (by decide)⟩

/-- C7: the extracted contact list is the per-category concatenation
deduplicated by exact string equality keeping first occurrences — it never
contains duplicates, is a sublist (hence order-preserving selection) of the
concatenation, retains every value occurring there, and on a text carrying
the same email twice it yields exactly one entry. -/
theorem C7_contact_dedup (text : String) :
    (extractContacts text).Nodup ∧
    extractContacts text = jsDedup (contactsConcat text) ∧
    List.Sublist (extractContacts text) (contactsConcat text) ∧
    (∀ s ∈ contactsConcat text, s ∈ extractContacts text) ∧
    extractContacts "alice@example.com and alice@example.com" =
      ["alice@example.com"] :=
  ⟨jsDedup_nodup _, rfl, jsDedup_sublist _,
   fun s hs => (mem_jsDedup _ s).mpr hs, by decide⟩

/-- Witness for C7: the completeness clause applied at a concrete duplicated
email. -/
theorem C7_contact_dedup_witness :
    "a@b.cd" ∈ extractContacts "a@b.cd a@b.cd" :=
  (C7_contact_dedup "a@b.cd a@b.cd").2.2.2.1 "a@b.cd" (by decide)

/-! ## Claim C8: backup before write -/

theorem fsRead_fsWrite_same (fs : FileSystem) (p c : String) :
    fsRead (fsWrite fs p c) p = some c := by
  simp [fsRead, fsWrite, List.find?_cons]

theorem fsRead_fsWrite_other (fs : FileSystem) (p c q : String) (h : q ≠ p) :
    fsRead (fsWrite fs p c) q = fsRead fs q := by
  have hb : (p == q) = false := beq_eq_false_iff_ne.mpr (fun hpq => h hpq.symm)
  simp [fsRead, fsWrite, List.find?_cons, hb]

/-- The backup path is distinct from the profile path (it is strictly
longer). -/
theorem backupPath_ne (profilePath : String) (timestamp : Nat) :
    profilePath ++ ".backup." ++ toString timestamp ≠ profilePath := by
  intro h
  have hlen := congrArg String.length h
  rw [String.length_append, String.length_append] at hlen
  have h8 : ".backup.".length = 8 := by decide
  omega

/-- C8: `saveProfile` copies the stored record to the timestamped backup path
**before** the main write.  If the backup copy fails, the error propagates and
the file system is untouched — in particular the main write is never
attempted and the previously stored version stays intact.  On the success
path the backup holds the version that was stored **before** the write, and
the profile path holds the new serialization. -/
theorem C8_backup_before_write (o : FsOracle) (fs : FileSystem)
    (profilePath : String) (timestamp : Nat) (serialize : ProfileData → String)
    (profile : ProfileData) :
    (o.copyFails profilePath (profilePath ++ ".backup." ++ toString timestamp) = true →
      saveProfile o fs profilePath timestamp serialize profile =
        (some FsError.copyFailed, fs)) ∧
    (∀ old : String,
      o.copyFails profilePath (profilePath ++ ".backup." ++ toString timestamp) = false →
      o.writeFails profilePath (serialize profile) = false →
      fsRead fs profilePath = some old →
      (saveProfile o fs profilePath timestamp serialize profile).1 = none ∧
      fsRead (saveProfile o fs profilePath timestamp serialize profile).2
        (profilePath ++ ".backup." ++ toString timestamp) = some old ∧
      fsRead (saveProfile o fs profilePath timestamp serialize profile).2 profilePath =
        some (serialize profile)) := by
  constructor
  · intro hfail
    simp [saveProfile, copyFileSync, hfail]
  · intro old hcopy hwrite hold
    have hne := backupPath_ne profilePath timestamp
    simp only [saveProfile, copyFileSync, hcopy, Bool.false_eq_true, if_false, hold,
      writeFileSync, hwrite]
    refine ⟨trivial, ?_, ?_⟩
    · rw [fsRead_fsWrite_other _ _ _ _ hne, fsRead_fsWrite_same]
    · rw [fsRead_fsWrite_same]

/-- Witness for C8: both clauses applied at concrete oracles and a concrete
one-file store. -/
theorem C8_backup_before_write_witness :
    saveProfile ⟨fun _ _ => true, fun _ _ => false⟩ [("p", "old")] "p" 7
        (fun _ => "newjson") emptyProfile = (some FsError.copyFailed, [("p", "old")]) ∧
    ((saveProfile ⟨fun _ _ => false, fun _ _ => false⟩ [("p", "old")] "p" 7
        (fun _ => "newjson") emptyProfile).1 = none ∧
      fsRead (saveProfile ⟨fun _ _ => false, fun _ _ => false⟩ [("p", "old")] "p" 7
        (fun _ => "newjson") emptyProfile).2 ("p" ++ ".backup." ++ toString 7) = some "old" ∧
      fsRead (saveProfile ⟨fun _ _ => false, fun _ _ => false⟩ [("p", "old")] "p" 7
        (fun _ => "newjson") emptyProfile).2 "p" = some "newjson") :=
  ⟨(C8_backup_before_write ⟨fun _ _ => true, fun _ _ => false⟩ [("p", "old")] "p" 7
      (fun _ => "newjson") emptyProfile).1 rfl,
   (C8_backup_before_write ⟨fun _ _ => false, fun _ _ => false⟩ [("p", "old")] "p" 7
      (fun _ => "newjson") emptyProfile).2 "old" rfl rfl (by decide)⟩

/-! ## Claim C10: programming-language detection by substring containment -/

/-- C10: whenever the lower-cased input text contains the letter `r`, the
fragment returned by `parseExtractedText` carries a languages list containing
the entry `{ name := "R", proficiency := "intermediate", context :=
"Extracted from PDF" }` — detection is plain substring containment of each
entry of the fixed language list over the whole lower-cased text. -/
theorem C10_r_language (text : String)
    (h : containsSubstr (jsToLower text) "r" = true) :
    ∃ l, (parseExtractedText text).languages = some l ∧
      ({ name := "R", proficiency := "intermediate",
         context := some "Extracted from PDF" } : LanguageEntry) ∈ l := by
  have hr : "r" ∈ programmingLanguagesList.filter
      (fun lang => containsSubstr (jsToLower text) lang) := by
    rw [List.mem_filter]
    exact ⟨by decide, h⟩
  have hR : "R" ∈ (programmingLanguagesList.filter
      (fun lang => containsSubstr (jsToLower text) lang)).map capitalizeFirst := by
    have hcap : capitalizeFirst "r" = "R" := by decide
    exact hcap ▸ List.mem_map_of_mem capitalizeFirst hr
  have hne : 0 < ((programmingLanguagesList.filter
      (fun lang => containsSubstr (jsToLower text) lang)).map capitalizeFirst).length :=
    List.length_pos.mpr (List.ne_nil_of_mem hR)
  refine ⟨_, ?_, List.mem_map_of_mem
    (fun lang => ({ name := lang, proficiency := "intermediate",
                    context := some "Extracted from PDF" } : LanguageEntry)) hR⟩
  simp only [parseExtractedText]
  rw [if_pos hne]

/-- Witness for C10: the law applied at the one-character text `"r"`. -/
theorem C10_r_language_witness :
    ∃ l, (parseExtractedText "r").languages = some l ∧
      ({ name := "R", proficiency := "intermediate",
         context := some "Extracted from PDF" } : LanguageEntry) ∈ l :=
  C10_r_language "r" (by decide)
